import Mathlib

/-!
Shallow embedding of `src/pyeit/mesh/distmesh.py` (2D/3D distmesh mesh
generator) over exact rationals.  Machine floats are modelled by `ℚ`; the
floating-point square root of numpy is an explicit function parameter
(`Ext.sqrt`), so every statement that only depends on comparisons and
structure is settled exactly.  Operations that can raise a Python
exception (`np.max` over an empty array, `np.arange` with a zero step,
out-of-range indexing on the bounding box) return `Option`, with `none`
modelling the raised exception.
-/

namespace Distmesh

/-- A point: the row of a numpy `(N, Ndim)` array. -/
abbrev Vec := List ℚ

/-- A simplex: a row of `Delaunay(p).simplices`, i.e. point indices. -/
abbrev Simplex := List ℕ

/-- Componentwise sum of two coordinate rows (numpy broadcasting `+`). -/
def vadd (a b : Vec) : Vec := List.zipWith (· + ·) a b

/-- Componentwise difference of two coordinate rows (numpy `-`). -/
def vsub (a b : Vec) : Vec := List.zipWith (· - ·) a b

/-- Scalar times a coordinate row (numpy scalar broadcasting `*`). -/
def vsmul (c : ℚ) (a : Vec) : Vec := a.map (fun x => c * x)

/-- The all-zero row of width `n`. -/
def vzero (n : ℕ) : Vec := List.replicate n 0

/-- Sum of squares of the components of a row. -/
def sumsq (a : Vec) : ℚ := (a.map (fun x => x * x)).sum

/-- The external collaborators of the module, made explicit:
`sqrt` is numpy's floating square root, `deps` the finite-difference step
used by `edge_project`, `oracle` is `scipy.spatial.Delaunay(...).simplices`
(the triangulation oracle of the spec), and `rand` the stream of draws of
`np.random.rand` (the seeded random source). -/
structure Ext where
  sqrt : ℚ → ℚ
  deps : ℚ
  oracle : List Vec → List Simplex
  rand : ℕ → ℚ

/-- Modelled from the spec: `dist` of `pyeit/mesh/utils.py` is imported by
`distmesh.py` but `utils.py` is not under `src/`.  Spec §2 "Geometry
Utilities": pairwise Euclidean length computation over vector batches; a
single row distance is the Euclidean norm, i.e. `sqrt` of the sum of
squares. -/
def dist (E : Ext) (v : Vec) : ℚ := E.sqrt (sumsq v)

/-- The `i`-th coordinate basis row of width `n` scaled by `c`. -/
def evec (n i : ℕ) (c : ℚ) : Vec :=
  (List.range n).map (fun j => if j = i then c else 0)

/-- Modelled from the spec: `edge_project` of `pyeit/mesh/utils.py` is not
under `src/`.  Spec §4.5: the gradient of the distance field is estimated
by symmetric finite differences along each coordinate axis with a small
fixed step (`deps`), and the projection displacement is
`distance_value * gradient`. -/
def edge_project (E : Ext) (fd : Vec → ℚ) (x : Vec) : Vec :=
  let d := fd x
  vsmul d ((List.range x.length).map (fun i =>
    (fd (vadd x (evec x.length i E.deps)) - fd (vsub x (evec x.length i E.deps)))
      / (2 * E.deps)))

/-- `np.arange a b step`: `max 0 ⌈(b - a) / step⌉` points starting at `a`
with stride `step`; a zero step raises (`none`). -/
def arange (a b step : ℚ) : Option (List ℚ) :=
  if step = 0 then none
  else some ((List.range (⌈(b - a) / step⌉).toNat).map (fun i => a + i * step))

/-- `bbox2d h0 bbox`: the near-hexagonal candidate lattice.  `x`-spacing is
`h0`, `y`-spacing is `h0 * sqrt 3 / 2`, and every second row (odd `iy`) is
shifted right by `h0 / 2`.  Points are emitted in the row-major order of
`np.array([x.ravel(), y.ravel()]).T`.  Missing bounding-box entries model
the `IndexError` of `bbox[i][j]`. -/
def bbox2d (E : Ext) (h0 : ℚ) (bbox : List (List ℚ)) : Option (List Vec) := do
  let b0 ← bbox.get? 0
  let b1 ← bbox.get? 1
  let x0 ← b0.get? 0
  let y0 ← b0.get? 1
  let x1 ← b1.get? 0
  let y1 ← b1.get? 1
  let xs ← arange x0 x1 h0
  let ys ← arange y0 y1 (h0 * E.sqrt 3 / 2)
  some (ys.enum.flatMap (fun iy =>
    xs.map (fun xv => [xv + (if iy.1 % 2 = 1 then h0 / 2 else 0), iy.2])))

/-- `bbox3d h0 bbox`: the 3D candidate lattice with spacing `h0` on each
axis, in the row-major order of `meshgrid(..., indexing='xy')` raveling. -/
def bbox3d (h0 : ℚ) (bbox : List (List ℚ)) : Option (List Vec) := do
  let b0 ← bbox.get? 0
  let b1 ← bbox.get? 1
  let x0 ← b0.get? 0
  let y0 ← b0.get? 1
  let z0 ← b0.get? 2
  let x1 ← b1.get? 0
  let y1 ← b1.get? 1
  let z1 ← b1.get? 2
  let xs ← arange x0 x1 h0
  let ys ← arange y0 y1 h0
  let zs ← arange z0 z1 h0
  some (ys.flatMap (fun yv => xs.flatMap (fun xv => zs.map (fun zv => [xv, yv, zv]))))

/-- `remove_duplicate_nodes p pfix geps`: for each fixed row, keep only the
sampled points whose distance to it exceeds `geps`. -/
def remove_duplicate_nodes (E : Ext) (p pfix : List Vec) (geps : ℚ) : List Vec :=
  pfix.foldl (fun acc row => acc.filter (fun x => dist E (vsub x row) > geps)) p

/-- The session state of the `DISTMESH` class.  `pold` rows are
`Option Vec`, `none` standing for a row of `np.inf` (the sentinel that
forces retriangulation). -/
structure DISTMESH where
  fd : Vec → ℚ
  fh : Vec → ℚ
  h0 : ℚ
  geps : ℚ
  densityctrlfreq : ℕ
  dptol : ℚ
  ttol : ℚ
  Fscale : ℚ
  deltat : ℚ
  pfix : List Vec
  nfix : ℕ
  Ndim : ℕ
  p : List Vec
  pold : List (Option Vec)
  bars : List (ℕ × ℕ)
  t : List Simplex
  N : ℕ

namespace DISTMESH

/-- `is_retriangulate`: `np.max(dist(p - pold)) > h0 * ttol`.  A `none`
(`np.inf`) row of `pold` makes the drift infinite, hence larger than the
finite threshold; `np.max` over an empty array raises (`none`). -/
def is_retriangulate (E : Ext) (dm : DISTMESH) : Option Bool :=
  let drifts := List.zipWith (fun x o => Option.map (fun q => dist E (vsub x q)) o) dm.p dm.pold
  if drifts.isEmpty then none
  else some (drifts.any (fun o =>
    match o with
    | none => true
    | some q => q > dm.h0 * dm.ttol))

/-- Mean of the rows of `pts` indexed by the simplex `s`
(`np.mean(pts[tri], axis=1)` for one row `s` of `tri`). -/
def centroid (pts : List Vec) (s : Simplex) : Vec :=
  match s.map (fun i => pts.getD i []) with
  | [] => []
  | r :: rest => vsmul (1 / (s.length : ℚ)) (rest.foldl vadd r)

/-- `_delaunay pts fd geps`: call the triangulation oracle, keep only the
simplices whose centroid is strictly interior (`fd < -geps`). -/
def _delaunay (E : Ext) (fd : Vec → ℚ) (geps : ℚ) (pts : List Vec) : List Simplex :=
  (E.oracle pts).filter (fun s => fd (centroid pts s) < -geps)

/-- `list(combinations(range(ndim + 1), 2))`: the vertex index pairs of the
edges of a `ndim`-simplex, in combinations order. -/
def edge_combinations (ndim : ℕ) : List (ℕ × ℕ) :=
  (List.range (ndim + 1)).flatMap (fun i =>
    (List.range (ndim + 1)).filterMap (fun j => if i < j then some (i, j) else none))

/-- Lexicographic order on index pairs, the row order of `np.unique` on the
structured view of the sorted bar array. -/
def pairLe (a b : ℕ × ℕ) : Bool := a.1 < b.1 || (a.1 = b.1 && a.2 ≤ b.2)

/-- Insertion of a pair into a lexicographically sorted list (structural
recursion, so that concrete runs reduce inside the kernel). -/
def insertPair (x : ℕ × ℕ) : List (ℕ × ℕ) → List (ℕ × ℕ)
  | [] => [x]
  | y :: ys => if pairLe x y then x :: y :: ys else y :: insertPair x ys

/-- Insertion sort of index pairs by `pairLe`. -/
def sortPairs (l : List (ℕ × ℕ)) : List (ℕ × ℕ) := l.foldr insertPair []

/-- `np.unique` on rows: sort lexicographically and drop duplicates. -/
def uniquePairs (l : List (ℕ × ℕ)) : List (ℕ × ℕ) := (sortPairs l).dedup

/-- The canonicalized (`np.sort(bars, axis=1)`) edge rows of all simplices:
`t[:, edge_combinations].reshape((-1, 2))` followed by the row sort. -/
def allEdges (ndim : ℕ) (t : List Simplex) : List (ℕ × ℕ) :=
  t.flatMap (fun s =>
    (edge_combinations ndim).map (fun ij =>
      (min (s.getD ij.1 0) (s.getD ij.2 0), max (s.getD ij.1 0) (s.getD ij.2 0))))

/-- `triangulate`: snapshot `pold := p`, recompute the Simplex Set through
`_delaunay`, and derive the deduplicated canonical Bar Set. -/
def triangulate (E : Ext) (dm : DISTMESH) : DISTMESH :=
  let t := _delaunay E dm.fd dm.geps dm.p
  { dm with
    pold := dm.p.map some
    bars := uniquePairs (allEdges dm.Ndim t)
    t := t }

/-- The local `bars_a` of `bar_length`: first endpoints of all bars. -/
def bars_a (dm : DISTMESH) : List Vec := dm.bars.map (fun b => dm.p.getD b.1 [])

/-- The local `bars_b` of `bar_length`: second endpoints of all bars. -/
def bars_b (dm : DISTMESH) : List Vec := dm.bars.map (fun b => dm.p.getD b.2 [])

/-- The local `barvec = bars_a - bars_b` of `bar_length`. -/
def barvec (dm : DISTMESH) : List Vec := List.zipWith vsub (bars_a dm) (bars_b dm)

/-- The local `L = dist(barvec)` of `bar_length`: current bar lengths. -/
def barL (E : Ext) (dm : DISTMESH) : List ℚ := (barvec dm).map (dist E)

/-- The local `hbars = fh((bars_a + bars_b) / 2)` of `bar_length`: the
density field at the bar midpoints. -/
def hbars (dm : DISTMESH) : List ℚ :=
  List.zipWith (fun a b => dm.fh (vsmul (1 / 2) (vadd a b))) (bars_a dm) (bars_b dm)

/-- The local `L0 = hbars * Fscale * sqrt(sum(L**2) / sum(hbars**2))` of
`bar_length`: desired bar lengths. -/
def barL0 (E : Ext) (dm : DISTMESH) : List ℚ :=
  (hbars dm).map (fun hb =>
    hb * dm.Fscale * E.sqrt (((barL E dm).map (fun l => l * l)).sum
      / ((hbars dm).map (fun q => q * q)).sum))

/-- `bar_length`: current bar lengths `L`, desired lengths `L0` and bar
vectors. -/
def bar_length (E : Ext) (dm : DISTMESH) : List ℚ × List ℚ × List Vec :=
  (barL E dm, barL0 E dm, barvec dm)

/-- The first endpoint coordinates of bar `j`. -/
def endA (dm : DISTMESH) (j : ℕ) : Vec := dm.p.getD (dm.bars.getD j (0, 0)).1 []

/-- The second endpoint coordinates of bar `j`. -/
def endB (dm : DISTMESH) (j : ℕ) : Vec := dm.p.getD (dm.bars.getD j (0, 0)).2 []

/-- `bar_force`: per-bar repulsive magnitude `F = max(L0 - L, 0)`, the
directional forces `Fvec = F * (barvec / L)`, their scatter-accumulation
onto the `N` nodes (the `csr_matrix` summation: `+Fvec` on the first
endpoint, `-Fvec` on the second), and the zeroing of the first
`len(pfix)` rows. -/
def bar_force (dm : DISTMESH) (L L0 : List ℚ) (barvec : List Vec) : List Vec :=
  let F := List.zipWith (fun l0 l => max (l0 - l) 0) L0 L
  let Fvec := List.zipWith (fun f vl => (Prod.fst vl).map (fun c => f * (c / Prod.snd vl)))
    F (barvec.zip L)
  let Ftot := (List.range dm.N).map (fun n =>
    (List.zipWith (fun b fv =>
        vadd (if Prod.fst b = n then fv else vzero dm.Ndim)
          (if Prod.snd b = n then vsmul (-1) fv else vzero dm.Ndim))
      dm.bars Fvec).foldl vadd (vzero dm.Ndim))
  Ftot.enum.map (fun nv => if nv.1 < dm.pfix.length then vzero dm.Ndim else nv.2)

/-- The deletion candidates of `density_control`:
`setdiff1d(bars[L0 > 2 * L, :].reshape(-1), arange(nfix))`.  `setdiff1d`
also sorts and deduplicates, but the result is only ever used through
membership, for which this filter is equivalent. -/
def density_ixdel (dm : DISTMESH) (L L0 : List ℚ) : List ℕ :=
  (((dm.bars.zip (L.zip L0)).filter (fun bll => bll.2.2 > 2 * bll.2.1)).flatMap
    (fun bll => [bll.1.1, bll.1.2])).filter (fun ix => dm.nfix ≤ ix)

/-- The surviving row indices of `density_control`:
`setdiff1d(arange(N), ixdel)`, in ascending order. -/
def density_kept (dm : DISTMESH) (L L0 : List ℚ) : List ℕ :=
  (List.range dm.N).filter (fun ix => ix ∉ density_ixdel dm L L0)

/-- `density_control`: drop every free endpoint of an over-crowded bar
(`L0 > 2 * L`), reset `N`, and reinitialize `pold` to rows of `np.inf`. -/
def density_control (dm : DISTMESH) (L L0 : List ℚ) : DISTMESH :=
  let p := (density_kept dm L L0).map (fun ix => dm.p.getD ix [])
  { dm with
    p := p
    N := p.length
    pold := List.replicate p.length none }

/-- The local `p` of `move_p` right after `p += deltat * Ftot`. -/
def move_p1 (dm : DISTMESH) (Ftot : List Vec) : List Vec :=
  List.zipWith (fun x f => vadd x (vsmul dm.deltat f)) dm.p Ftot

/-- The local `d = fd(p)` of `move_p`, evaluated after the position
update. -/
def move_d (dm : DISTMESH) (Ftot : List Vec) : List ℚ :=
  (move_p1 dm Ftot).map dm.fd

/-- The positions after the boundary projection `p[d > 0] -=
edge_project(p[d > 0], fd)` of `move_p`. -/
def move_p2 (E : Ext) (dm : DISTMESH) (Ftot : List Vec) : List Vec :=
  List.zipWith (fun x di => if di > 0 then vsub x (edge_project E dm.fd x) else x)
    (move_p1 dm Ftot) (move_d dm Ftot)

/-- The interior displacement magnitudes
`dist(deltat * Ftot[d < -geps]) / h0` of `move_p`. -/
def move_deltas (E : Ext) (dm : DISTMESH) (Ftot : List Vec) : List ℚ :=
  (List.zipWith (fun di f =>
    if di < -dm.geps then some (dist E (vsmul dm.deltat f) / dm.h0) else none)
    (move_d dm Ftot) Ftot).reduceOption

/-- `move_p`: integrate `p += deltat * Ftot`, project every point with
`fd > 0` back onto the boundary through `edge_project`, and return the
convergence flag `max(dist(deltat * Ftot[d < -geps]) / h0) < dptol`.
`np.max` over an empty selection (no strictly interior point) raises
(`none`). -/
def move_p (E : Ext) (dm : DISTMESH) (Ftot : List Vec) : Option (DISTMESH × Bool) :=
  match (move_deltas E dm Ftot).max? with
  | none => none
  | some m => some ({ dm with p := move_p2 E dm Ftot }, decide (m < dm.dptol))

/-- `DISTMESH.__init__`: build the candidate lattice from the bounding box,
keep the points with `fd < geps`, rejection-sample on `1 / fh**2`
normalized by its maximum (`np.max` over an empty array raises), remove
sampled points duplicating a fixed point and prepend the fixed points,
then triangulate once. -/
def init (E : Ext) (fd fh : Vec → ℚ) (h0 : ℚ) (pfix : List Vec)
    (bbox : List (List ℚ)) (densityctrlfreq : ℕ)
    (dptol ttol Fscale deltat : ℚ) : Option DISTMESH := do
  let geps := (1 / 1000) * h0
  let Ndim := (bbox.headD []).length
  let p0 ← if Ndim = 2 then bbox2d E h0 bbox else bbox3d h0 bbox
  let p1 := p0.filter (fun x => fd x < geps)
  let r0 := p1.map (fun x => 1 / (fh x) ^ 2)
  let rmax ← r0.max?
  let p2 := (p1.zip r0).enum.filterMap (fun ixr =>
    if E.rand ixr.1 < ixr.2.2 / rmax then some ixr.2.1 else none)
  let nfix := pfix.length
  let p4 := if 0 < nfix then pfix ++ remove_duplicate_nodes E p2 pfix geps else p2
  let dm : DISTMESH :=
    { fd := fd, fh := fh, h0 := h0, geps := geps
      densityctrlfreq := densityctrlfreq, dptol := dptol, ttol := ttol
      Fscale := Fscale, deltat := deltat
      pfix := pfix, nfix := nfix, Ndim := Ndim
      p := p4, pold := List.replicate p4.length none
      bars := [], t := [], N := p4.length }
  some (triangulate E dm)

end DISTMESH

/-- One iteration of the relaxation loop of `build`: retriangulate if due,
compute bar lengths, either run density control (and `continue`) or apply
forces and move; the returned flag is the `break` decision. -/
def buildIter (E : Ext) (densityctrlfreq : ℕ) (i : ℕ) (dm : DISTMESH) :
    Option (DISTMESH × Bool) := do
  let rt ← dm.is_retriangulate E
  let dm1 := if rt then dm.triangulate E else dm
  let LL := dm1.bar_length E
  let L := LL.1
  let L0 := LL.2.1
  let barvec := LL.2.2
  if i % densityctrlfreq = 0 ∧ (L.zip L0).any (fun ll => ll.2 > 2 * ll.1) then
    some (dm1.density_control L L0, false)
  else
    let Ftot := dm1.bar_force L L0 barvec
    let r ← dm1.move_p E Ftot
    some (r.1, r.2)

/-- `for i in range(maxiter)` with `break` on convergence: structural
recursion on the remaining iteration count. -/
def buildLoop (E : Ext) (densityctrlfreq : ℕ) : ℕ → ℕ → DISTMESH → Option DISTMESH
  | 0, _, dm => some dm
  | fuel + 1, i, dm => do
    let r ← buildIter E densityctrlfreq i dm
    if r.2 then some r.1 else buildLoop E densityctrlfreq fuel (i + 1) r.1

/-- `build`: construct the session, relax for at most `maxiter` iterations,
retriangulate one final time, and return `(p, t)`. -/
def build (E : Ext) (fd fh : Vec → ℚ) (pfix : List Vec) (bbox : List (List ℚ))
    (h0 : ℚ) (densityctrlfreq : ℕ) (dptol ttol Fscale deltat : ℚ)
    (maxiter : ℕ) : Option (List Vec × List Simplex) := do
  let dm ← DISTMESH.init E fd fh h0 pfix bbox densityctrlfreq dptol ttol Fscale deltat
  let dmEnd ← buildLoop E densityctrlfreq maxiter 0 dm
  let dmF := dmEnd.triangulate E
  some (dmF.p, dmF.t)

/-! Concrete instantiations of the external collaborators and of session
states, used by the witnesses and counterexamples below.  `ExtA.sqrt` is
the identity: no settled statement depends on the numeric value of the
square root, only on comparisons against thresholds. -/

/-- External collaborators for the concrete scenarios: identity square
root, step `1/100` for the finite differences, an oracle returning no
simplex, and the constant random stream `1/2`. -/
def ExtA : Ext :=
  { sqrt := fun q => q, deps := 1 / 100, oracle := fun _ => [], rand := fun _ => 1 / 2 }

/-- External collaborators whose oracle always returns the single simplex
`[0, 1, 2]`. -/
def ExtT : Ext :=
  { sqrt := fun q => q, deps := 1 / 100, oracle := fun _ => [[0, 1, 2]], rand := fun _ => 1 / 2 }

/-- A half-plane distance field: negative left of `x = 1/2`. -/
def fdA : Vec → ℚ := fun v => v.getD 0 0 - 1 / 2

/-- A uniform density field. -/
def fhA : Vec → ℚ := fun _ => 1

/-- An everywhere-interior distance field. -/
def fdB : Vec → ℚ := fun _ => -1

/-- A session state: three free points forming a triangle, its three bars,
no fixed points. -/
def dmTri : DISTMESH :=
  { fd := fdB, fh := fhA, h0 := 1, geps := 1 / 1000, densityctrlfreq := 30
    dptol := 1 / 1000, ttol := 1 / 10, Fscale := 6 / 5, deltat := 1 / 5
    pfix := [], nfix := 0, Ndim := 2
    p := [[0, 0], [1, 0], [0, 1]]
    pold := [some [0, 0], some [1, 0], some [0, 1]]
    bars := [(0, 1), (0, 2), (1, 2)], t := [[0, 1, 2]], N := 3 }

/-- A session state: one fixed point and three free points, one bar between
free points `1` and `2`. -/
def dmFix : DISTMESH :=
  { fd := fdB, fh := fhA, h0 := 1, geps := 1 / 1000, densityctrlfreq := 30
    dptol := 1 / 1000, ttol := 1 / 10, Fscale := 6 / 5, deltat := 1 / 5
    pfix := [[0, 0]], nfix := 1, Ndim := 2
    p := [[0, 0], [1, 0], [0, 1], [5, 5]]
    pold := [some [0, 0], some [1, 0], some [0, 1], some [5, 5]]
    bars := [(1, 2)], t := [[1, 2, 3]], N := 4 }

/-- A session state with one fixed and two free points, all of them
outside the strict interior of `fdA` (no point has `fd < -geps`). -/
def dmOut : DISTMESH :=
  { fd := fdA, fh := fhA, h0 := 1, geps := 1 / 1000, densityctrlfreq := 30
    dptol := 1 / 1000, ttol := 1 / 10, Fscale := 6 / 5, deltat := 1 / 5
    pfix := [[1 / 2, 0]], nfix := 1, Ndim := 2
    p := [[1 / 2, 0], [2, 0], [3, 1]]
    pold := [some [1 / 2, 0], some [2, 0], some [3, 1]]
    bars := [], t := [], N := 3 }

/-! ## Theorems

Batteries marks the arithmetic of `Rat` `@[irreducible]`, which blocks the
evaluation of concrete runs by `decide`/`rfl`; it is restored to
`semireducible` locally for the proofs. -/

section Proofs

attribute [local semireducible] Rat.add Rat.mul Rat.inv Rat.sub

/-- Claim C1, counterexample.  A run of `build` with one fixed point
`[2, 0]` lying outside the domain (`fd > 0`): the boundary-projection step
of `move_p` displaces the fixed point to `[1/2, 0]`, so row `0` of the
returned Point Set differs from the original fixed point. -/
theorem claim1_counterexample :
    (build ExtA fdA fhA [[2, 0]] [[0, 0], [1, 1]] 1 30 (1 / 1000) (1 / 10) (6 / 5) (1 / 5)
        1).map (fun r => r.1.take 1) = some [[1 / 2, 0]] ∧
      ([[1 / 2, 0]] : List Vec) ≠ [[2, 0]] :=
  ⟨by decide, by decide⟩

/-- Claim C4.  With a lattice whose intersection with the domain is empty
(the whole lattice has `fd = 1 ≥ geps`), session construction does not
succeed: `np.max` over the empty rejection-sampling array `r0` raises, so
`DISTMESH.__init__` fails instead of returning the fixed points. -/
theorem claim4_theorem :
    DISTMESH.init ExtA (fun _ => 1) (fun _ => 1) 1 [[1 / 2, 1 / 2]] [[0, 0], [1, 1]] 30
      (1 / 1000) (1 / 10) (6 / 5) (1 / 5) = none := by
  rfl

/-- Claim C6, counterexample.  In a session state with no fixed points and
every bar over-crowded, `density_control` deletes every point; the
subsequent `is_retriangulate` then takes `np.max` over an empty array and
raises (`none`) instead of returning `true`. -/
theorem claim6_counterexample :
    DISTMESH.is_retriangulate ExtA (DISTMESH.density_control dmTri [1, 1, 2] [10, 10, 10])
      = none := by
  rfl

/-- Claim C9.  `build` is deterministic: the randomness of the sampler is
the explicit stream `Ext.rand`, so two runs with identical inputs and an
identically seeded random source yield identical Point Sets and Simplex
Sets. -/
theorem claim9_theorem (E : Ext) (fd fh : Vec → ℚ) (pfix : List Vec)
    (bbox : List (List ℚ)) (h0 : ℚ) (densityctrlfreq : ℕ)
    (dptol ttol Fscale deltat : ℚ) (maxiter : ℕ)
    (r1 r2 : Option (List Vec × List Simplex))
    (h1 : build E fd fh pfix bbox h0 densityctrlfreq dptol ttol Fscale deltat maxiter = r1)
    (h2 : build E fd fh pfix bbox h0 densityctrlfreq dptol ttol Fscale deltat maxiter = r2) :
    r1 = r2 :=
  h1 ▸ h2

/-- Witness for C9 at a concrete run. -/
theorem claim9_witness :
    (some ([[0, 0]], []) : Option (List Vec × List Simplex)) = some ([[0, 0]], []) :=
  claim9_theorem ExtA fdB fhA [] [[0, 0], [1, 1]] 1 30 (1 / 1000) (1 / 10) (6 / 5) (1 / 5) 5
    (some ([[0, 0]], [])) (some ([[0, 0]], [])) (by decide) (by decide)

/-! Helper lemmas about lists. -/

theorem exists_of_mem_zipWith {α β γ : Type} {f : α → β → γ} {l1 : List α} {l2 : List β}
    {x : γ} (h : x ∈ List.zipWith f l1 l2) : ∃ a ∈ l1, ∃ b ∈ l2, x = f a b := by
  induction l1 generalizing l2 with
  | nil => simp at h
  | cons a as ih =>
    cases l2 with
    | nil => simp at h
    | cons b bs =>
      rcases (by simpa using h : x = f a b ∨ x ∈ List.zipWith f as bs) with h1 | h1
      · exact ⟨a, by simp, b, by simp, h1⟩
      · rcases ih h1 with ⟨a1, ha, b1, hb, hx⟩
        exact ⟨a1, by simp [ha], b1, by simp [hb], hx⟩

theorem reduceOption_eq_nil {α : Type} {l : List (Option α)}
    (h : ∀ x ∈ l, x = none) : l.reduceOption = [] := by
  induction l with
  | nil => rfl
  | cons x xs ih =>
    have hx := h x (by simp)
    subst hx
    simpa [List.reduceOption] using ih fun y hy => h y (by simp [hy])

theorem mem_insertPair {x a : ℕ × ℕ} {l : List (ℕ × ℕ)} :
    a ∈ DISTMESH.insertPair x l ↔ a = x ∨ a ∈ l := by
  induction l with
  | nil => simp [DISTMESH.insertPair]
  | cons y ys ih =>
    by_cases hxy : DISTMESH.pairLe x y
    · simp [DISTMESH.insertPair, hxy]
    · simp only [DISTMESH.insertPair, hxy, Bool.false_eq_true, if_false, List.mem_cons, ih]
      tauto

theorem mem_sortPairs {a : ℕ × ℕ} {l : List (ℕ × ℕ)} :
    a ∈ DISTMESH.sortPairs l ↔ a ∈ l := by
  induction l with
  | nil => simp [DISTMESH.sortPairs]
  | cons y ys ih =>
    show a ∈ DISTMESH.insertPair y (DISTMESH.sortPairs ys) ↔ _
    rw [mem_insertPair, ih]
    simp

/-- Claim C10.  If after the position update `p += deltat * Ftot` no point
is strictly interior (`fd < -geps` holds for no point), `move_p` raises on
the empty-maximum reduction (`none`) instead of returning a convergence
flag; with at least one strictly interior point it returns normally. -/
theorem claim10_theorem (E : Ext) (dm : DISTMESH) (Ftot : List Vec) :
    ((∀ di ∈ DISTMESH.move_d dm Ftot, ¬ di < -dm.geps) → dm.move_p E Ftot = none)
      ∧ ((∃ di ∈ DISTMESH.move_d dm Ftot, di < -dm.geps) →
        ∃ r : DISTMESH × Bool, dm.move_p E Ftot = some r) := by
  constructor
  · intro h
    have hmov : DISTMESH.move_deltas E dm Ftot = [] := by
      apply reduceOption_eq_nil
      intro x hx
      rcases exists_of_mem_zipWith hx with ⟨di, hdi, f, _, hxeq⟩
      rw [hxeq, if_neg (h di hdi)]
    unfold DISTMESH.move_p
    rw [hmov]
    rfl
  · rintro ⟨di, hdi, hlt⟩
    rcases List.mem_iff_getElem?.mp hdi with ⟨i, hig⟩
    have hilen := (List.getElem?_eq_some_iff.mp hig).1
    have hiF : i < Ftot.length := by
      have h2 := hilen
      simp only [DISTMESH.move_d, DISTMESH.move_p1, List.length_map,
        List.length_zipWith] at h2
      omega
    have hzi : (List.zipWith (fun di f =>
        if di < -dm.geps then some (dist E (vsmul dm.deltat f) / dm.h0) else none)
          (DISTMESH.move_d dm Ftot) Ftot)[i]?
        = some (some (dist E (vsmul dm.deltat Ftot[i]) / dm.h0)) := by
      rw [List.getElem?_zipWith, hig, List.getElem?_eq_getElem hiF]
      simp [hlt]
    have hmem : (dist E (vsmul dm.deltat Ftot[i]) / dm.h0) ∈
        DISTMESH.move_deltas E dm Ftot :=
      List.reduceOption_mem_iff.mpr (List.mem_iff_getElem?.mpr ⟨i, hzi⟩)
    cases hmax : (DISTMESH.move_deltas E dm Ftot).max? with
    | none =>
      rw [List.max?_eq_none_iff.mp hmax] at hmem
      simp at hmem
    | some m =>
      exact ⟨({ dm with p := DISTMESH.move_p2 E dm Ftot }, decide (m < dm.dptol)),
        by unfold DISTMESH.move_p; rw [hmax]⟩

/-- Witness for C10: a state whose three points all fail `fd < -geps`
after a zero-force move, so `move_p` raises. -/
theorem claim10_witness : DISTMESH.move_p ExtA dmOut [[0, 0], [0, 0], [0, 0]] = none :=
  (claim10_theorem ExtA dmOut [[0, 0], [0, 0], [0, 0]]).1 (by decide)

/-- Every deletion candidate of `density_control` is a free index. -/
theorem density_ixdel_free {dm : DISTMESH} {L L0 : List ℚ} {x : ℕ}
    (h : x ∈ DISTMESH.density_ixdel dm L L0) : dm.nfix ≤ x := by
  have h2 := (List.mem_filter.mp h).2
  simpa using h2

/-- Claim C5.  If bar `i` satisfies `L0 > 2 * L` and both endpoints are
free (`index ≥ nfix`), `density_control` removes both endpoints (hence at
least one) from the Point Set — their indices are not among the kept row
indices whose rows form the new Point Set — and every index below `nfix`
is kept. -/
theorem claim5_theorem (dm : DISTMESH) (L L0 : List ℚ) (i : ℕ)
    (hi : i < dm.bars.length)
    (hL : dm.bars.length ≤ L.length) (hL0 : dm.bars.length ≤ L0.length)
    (hflag : L0.getD i 0 > 2 * L.getD i 0)
    (ha : dm.nfix ≤ (dm.bars.getD i (0, 0)).1)
    (hb : dm.nfix ≤ (dm.bars.getD i (0, 0)).2)
    (hfixN : dm.nfix ≤ dm.N) :
    (dm.density_control L L0).p
        = (DISTMESH.density_kept dm L L0).map (fun ix => dm.p.getD ix [])
      ∧ (dm.bars.getD i (0, 0)).1 ∉ DISTMESH.density_kept dm L L0
      ∧ (dm.bars.getD i (0, 0)).2 ∉ DISTMESH.density_kept dm L L0
      ∧ ∀ j, j < dm.nfix → j ∈ DISTMESH.density_kept dm L L0 := by
  have hiL : i < L.length := lt_of_lt_of_le hi hL
  have hiL0 : i < L0.length := lt_of_lt_of_le hi hL0
  have hzipi : (dm.bars.zip (L.zip L0))[i]?
      = some (dm.bars.getD i (0, 0), (L.getD i 0, L0.getD i 0)) := by
    rw [List.zip_eq_zipWith, List.zip_eq_zipWith, List.getElem?_zipWith,
      List.getElem?_zipWith, List.getElem?_eq_getElem hi, List.getElem?_eq_getElem hiL,
      List.getElem?_eq_getElem hiL0, List.getD_eq_getElem _ _ hi,
      List.getD_eq_getElem _ _ hiL, List.getD_eq_getElem _ _ hiL0]
  have hflagmem : (dm.bars.getD i (0, 0), (L.getD i 0, L0.getD i 0))
      ∈ (dm.bars.zip (L.zip L0)).filter (fun bll => bll.2.2 > 2 * bll.2.1) := by
    refine List.mem_filter.mpr ⟨List.mem_iff_getElem?.mpr ⟨i, hzipi⟩, ?_⟩
    simpa using hflag
  have hindel : ∀ e, dm.nfix ≤ e →
      (e = (dm.bars.getD i (0, 0)).1 ∨ e = (dm.bars.getD i (0, 0)).2) →
      e ∈ DISTMESH.density_ixdel dm L L0 := by
    intro e he hor
    refine List.mem_filter.mpr ⟨List.mem_flatMap.mpr
      ⟨(dm.bars.getD i (0, 0), (L.getD i 0, L0.getD i 0)), hflagmem, ?_⟩, by simpa using he⟩
    rcases hor with h1 | h1 <;> simp [h1]
  have hnotkept : ∀ e, e ∈ DISTMESH.density_ixdel dm L L0 →
      e ∉ DISTMESH.density_kept dm L L0 := by
    intro e hdel hkept
    have h2 := (List.mem_filter.mp hkept).2
    simp only [decide_eq_true_eq] at h2
    exact h2 hdel
  refine ⟨rfl, ?_, ?_, ?_⟩
  · exact hnotkept _ (hindel _ ha (Or.inl rfl))
  · exact hnotkept _ (hindel _ hb (Or.inr rfl))
  · intro j hj
    refine List.mem_filter.mpr ⟨List.mem_range.mpr (lt_of_lt_of_le hj hfixN), ?_⟩
    simp only [decide_eq_true_eq]
    intro hmem
    exact absurd (density_ixdel_free hmem) (by omega)

/-- Witness for C5: the free bar `(1, 2)` of `dmFix` with `L0 = 3 > 2 = 2 * L`
loses both endpoints while the fixed index `0` is kept. -/
theorem claim5_witness :
    (DISTMESH.density_control dmFix [1] [3]).p
        = (DISTMESH.density_kept dmFix [1] [3]).map (fun ix => dmFix.p.getD ix [])
      ∧ (dmFix.bars.getD 0 (0, 0)).1 ∉ DISTMESH.density_kept dmFix [1] [3]
      ∧ (dmFix.bars.getD 0 (0, 0)).2 ∉ DISTMESH.density_kept dmFix [1] [3]
      ∧ ∀ j, j < dmFix.nfix → j ∈ DISTMESH.density_kept dmFix [1] [3] :=
  claim5_theorem dmFix [1] [3] 0 (by decide) (by decide) (by decide) (by decide)
    (by decide) (by decide) (by decide)

/-- Claim C7.  After `triangulate`, provided the triangulation oracle
returns valid indices into the point array it was given (its contract) and
`N` counts the current points, every index of the Simplex Set is a valid
index into the current Point Set, and the Bar Set holds each unordered
pair at most once, stored smaller-index-first. -/
theorem claim7_theorem (E : Ext) (dm : DISTMESH)
    (horacle : ∀ s ∈ E.oracle dm.p, ∀ ix ∈ s, ix < dm.p.length)
    (hN : dm.N = dm.p.length) :
    (∀ s ∈ (dm.triangulate E).t, ∀ ix ∈ s, ix < (dm.triangulate E).N)
      ∧ (dm.triangulate E).bars.Nodup
      ∧ ∀ pr ∈ (dm.triangulate E).bars, pr.1 ≤ pr.2 := by
  have ht : (dm.triangulate E).t = DISTMESH._delaunay E dm.fd dm.geps dm.p := rfl
  have hNN : (dm.triangulate E).N = dm.N := rfl
  have hbars : (dm.triangulate E).bars
      = DISTMESH.uniquePairs
        (DISTMESH.allEdges dm.Ndim (DISTMESH._delaunay E dm.fd dm.geps dm.p)) := rfl
  refine ⟨?_, ?_, ?_⟩
  · intro s hs ix hix
    rw [hNN, hN]
    have hs2 : s ∈ E.oracle dm.p := by
      rw [ht] at hs
      exact (List.mem_filter.mp hs).1
    exact horacle s hs2 ix hix
  · rw [hbars]
    exact List.nodup_dedup _
  · intro pr hpr
    rw [hbars] at hpr
    have h1 : pr ∈ DISTMESH.allEdges dm.Ndim (DISTMESH._delaunay E dm.fd dm.geps dm.p) :=
      mem_sortPairs.mp (List.mem_dedup.mp hpr)
    rcases List.mem_flatMap.mp h1 with ⟨s, _, hmem⟩
    rcases List.mem_map.mp hmem with ⟨ij, _, hpr2⟩
    rw [← hpr2]
    exact min_le_max

/-- Witness for C7: the triangle state retriangulated through the oracle
returning the single valid simplex `[0, 1, 2]`. -/
theorem claim7_witness :
    (∀ s ∈ (dmTri.triangulate ExtT).t, ∀ ix ∈ s, ix < (dmTri.triangulate ExtT).N)
      ∧ (dmTri.triangulate ExtT).bars.Nodup
      ∧ ∀ pr ∈ (dmTri.triangulate ExtT).bars, pr.1 ≤ pr.2 :=
  claim7_theorem ExtT dmTri (by decide) (by decide)

/-- Claim C6 (amended).  After each state-mutating operation the `pold`
snapshot has exactly as many rows as the current Point Set
(`density_control` unconditionally, `triangulate` unconditionally, `move_p`
under the alignment the loop maintains), and `density_control`
reinitializes `pold` to all-infinity rows, which makes the following
`is_retriangulate` return `true` whenever the shrunken Point Set is
non-empty. -/
theorem claim6_theorem (E : Ext) (dm dmv dmO : DISTMESH) (L L0 : List ℚ)
    (Ftot : List Vec) (c : Bool)
    (h1 : dmv.pold.length = dmv.p.length)
    (h2 : Ftot.length = dmv.p.length)
    (h3 : dmv.move_p E Ftot = some (dmO, c))
    (h4 : 0 < (dm.density_control L L0).p.length) :
    (dm.density_control L L0).pold.length = (dm.density_control L L0).p.length
      ∧ (dm.triangulate E).pold.length = (dm.triangulate E).p.length
      ∧ dmO.pold.length = dmO.p.length
      ∧ (dm.density_control L L0).is_retriangulate E = some true := by
  refine ⟨by simp [DISTMESH.density_control], by simp [DISTMESH.triangulate], ?_, ?_⟩
  · unfold DISTMESH.move_p at h3
    cases hmax : (DISTMESH.move_deltas E dmv Ftot).max? with
    | none => rw [hmax] at h3; exact absurd h3 (by simp)
    | some m =>
      rw [hmax] at h3
      simp only [Option.some.injEq, Prod.mk.injEq] at h3
      rw [← h3.1]
      show dmv.pold.length = (DISTMESH.move_p2 E dmv Ftot).length
      rw [h1]
      simp [DISTMESH.move_p2, DISTMESH.move_d, DISTMESH.move_p1, List.length_zipWith,
        List.length_map, h2]
  · have hX : 0 < ((DISTMESH.density_kept dm L L0).map (fun ix => dm.p.getD ix [])).length :=
      h4
    have hx0 : ((DISTMESH.density_kept dm L L0).map (fun ix => dm.p.getD ix []))[0]?
        = some (((DISTMESH.density_kept dm L L0).map (fun ix => dm.p.getD ix [])).get
          ⟨0, hX⟩) := by
      rw [List.getElem?_eq_getElem hX]
      rfl
    have hdr : (List.zipWith (fun x o => Option.map (fun q => dist E (vsub x q)) o)
          ((DISTMESH.density_kept dm L L0).map (fun ix => dm.p.getD ix []))
          (List.replicate
            ((DISTMESH.density_kept dm L L0).map (fun ix => dm.p.getD ix [])).length
            none))[0]? = some none := by
      rw [List.getElem?_zipWith, hx0, List.getElem?_replicate, if_pos hX]
      rfl
    have hne : (List.zipWith (fun x o => Option.map (fun q => dist E (vsub x q)) o)
          ((DISTMESH.density_kept dm L L0).map (fun ix => dm.p.getD ix []))
          (List.replicate
            ((DISTMESH.density_kept dm L L0).map (fun ix => dm.p.getD ix [])).length
            none)) ≠ [] := by
      intro hcon
      rw [hcon] at hdr
      simp at hdr
    have hp : (dm.density_control L L0).p
        = (DISTMESH.density_kept dm L L0).map (fun ix => dm.p.getD ix []) := rfl
    have hpold : (dm.density_control L L0).pold
        = List.replicate
          ((DISTMESH.density_kept dm L L0).map (fun ix => dm.p.getD ix [])).length none := rfl
    show (if _ then none else some _) = some true
    rw [hp, hpold, if_neg (fun hcon => hne (List.isEmpty_iff.mp hcon))]
    refine congrArg some (List.any_eq_true.mpr ⟨none, List.mem_iff_getElem?.mpr ⟨0, hdr⟩, rfl⟩)

/-- Witness for C6: the `dmFix` state with its single bar over-crowded
keeps the fixed point, and a zero-force move on the same state. -/
theorem claim6_witness :
    (dmFix.density_control [1] [3]).pold.length = (dmFix.density_control [1] [3]).p.length
      ∧ (dmFix.triangulate ExtA).pold.length = (dmFix.triangulate ExtA).p.length
      ∧ dmFix.pold.length = dmFix.p.length
      ∧ (dmFix.density_control [1] [3]).is_retriangulate ExtA = some true := by
  have h := claim6_theorem ExtA dmFix dmFix dmFix [1] [3]
    [[0, 0], [0, 0], [0, 0], [0, 0]] true (by decide) (by decide) (by rfl) (by decide)
  exact h

/-- With a non-positive spacing and an ordered bounding box the candidate
lattice is empty or its construction raises. -/
theorem bbox2d_nonpos (E : Ext) (h0 x0 y0 x1 y1 : ℚ) (hh : h0 ≤ 0) (hx : x0 ≤ x1) :
    bbox2d E h0 [[x0, y0], [x1, y1]] = none
      ∨ bbox2d E h0 [[x0, y0], [x1, y1]] = some [] := by
  rcases eq_or_lt_of_le hh with h0eq | h0lt
  · left
    simp [bbox2d, arange, ← h0eq]
  · have hxs : arange x0 x1 h0 = some [] := by
      have hne : ¬ h0 = 0 := ne_of_lt h0lt
      have hq : (x1 - x0) / h0 ≤ 0 :=
        div_nonpos_of_nonneg_of_nonpos (by linarith) (le_of_lt h0lt)
      have hceil : (⌈(x1 - x0) / h0⌉ : ℤ) ≤ 0 := by
        rw [Int.ceil_le]
        exact_mod_cast hq
      simp [arange, hne, Int.toNat_of_nonpos hceil]
    have hstep : bbox2d E h0 [[x0, y0], [x1, y1]]
        = (arange x0 x1 h0).bind (fun xs =>
            (arange y0 y1 (h0 * E.sqrt 3 / 2)).bind (fun ys =>
              some (ys.enum.flatMap (fun iy =>
                xs.map (fun xv => [xv + (if iy.1 % 2 = 1 then h0 / 2 else 0), iy.2]))))) :=
      rfl
    by_cases hys : h0 * E.sqrt 3 / 2 = 0
    · left
      rw [hstep, hxs, Option.some_bind]
      simp [arange, hys]
    · right
      have hys2 : arange y0 y1 (h0 * E.sqrt 3 / 2)
          = some ((List.range (⌈(y1 - y0) / (h0 * E.sqrt 3 / 2)⌉).toNat).map
            (fun i => y0 + i * (h0 * E.sqrt 3 / 2))) := by
        simp [arange, hys]
      rw [hstep, hxs, Option.some_bind, hys2, Option.some_bind]
      simp

/-- A failed or empty lattice construction makes `DISTMESH.__init__`
raise: either the lattice step raised, or `np.max` raises on the empty
rejection array. -/
theorem init_none_of_nonpos (E : Ext) (fd fh : Vec → ℚ) (pfix : List Vec)
    (dcf : ℕ) (dptol ttol Fscale deltat : ℚ) (h0 x0 y0 x1 y1 : ℚ)
    (hh : h0 ≤ 0) (hx : x0 ≤ x1) :
    DISTMESH.init E fd fh h0 pfix [[x0, y0], [x1, y1]] dcf dptol ttol Fscale deltat
      = none := by
  rcases bbox2d_nonpos E h0 x0 y0 x1 y1 hh hx with hb | hb <;>
    simp [DISTMESH.init, hb]

/-- A bounding box with a single coordinate column raises inside `bbox3d`
(`IndexError` on `bbox[0][1]`). -/
theorem init_none_of_bbox1 (E : Ext) (fd fh : Vec → ℚ) (pfix : List Vec)
    (dcf : ℕ) (dptol ttol Fscale deltat : ℚ) (h0 a b : ℚ) :
    DISTMESH.init E fd fh h0 pfix [[a], [b]] dcf dptol ttol Fscale deltat = none := rfl

/-- If the distance field is at least `geps` everywhere, the interior
filter keeps no lattice point and `np.max` raises on the empty rejection
array: construction fails for every bounding box. -/
theorem init_none_of_empty_interior (E : Ext) (fd fh : Vec → ℚ) (pfix : List Vec)
    (bbox : List (List ℚ)) (dcf : ℕ) (h0 dptol ttol Fscale deltat : ℚ)
    (hfd : ∀ x, (1 / 1000) * h0 ≤ fd x) :
    DISTMESH.init E fd fh h0 pfix bbox dcf dptol ttol Fscale deltat = none := by
  have hfil : ∀ p0 : List Vec, p0.filter (fun x => decide (fd x < 1 / 1000 * h0)) = [] :=
    fun p0 => List.filter_eq_nil_iff.mpr (fun x _ => by simpa using not_lt.mpr (hfd x))
  simp only [DISTMESH.init]
  by_cases hdim : (bbox.headD []).length = 2
  · rw [if_pos hdim]
    cases hb : bbox2d E h0 bbox with
    | none => rfl
    | some p0 =>
      simp only [hfil]
      rfl
  · rw [if_neg hdim]
    cases hb : bbox3d h0 bbox with
    | none => rfl
    | some p0 =>
      simp only [hfil]
      rfl

/-- A raised construction propagates: `build` returns nothing and does not
retry. -/
theorem build_none_of_init_none (E : Ext) (fd fh : Vec → ℚ) (pfix : List Vec)
    (bbox : List (List ℚ)) (h0 : ℚ) (dcf : ℕ) (dptol ttol Fscale deltat : ℚ)
    (maxiter : ℕ)
    (h : DISTMESH.init E fd fh h0 pfix bbox dcf dptol ttol Fscale deltat = none) :
    build E fd fh pfix bbox h0 dcf dptol ttol Fscale deltat maxiter = none := by
  simp [build, h]

/-- Claim C8.  Configuration errors — a malformed (single-column) bounding
box, a non-positive `h0` over an ordered bounding box, and a density
evaluation over an empty interior — make `DISTMESH.__init__` raise
(`none`), and `build` propagates the construction failure without
retrying it. -/
theorem claim8_theorem (E : Ext) (fd fh fdC : Vec → ℚ) (pfix : List Vec)
    (dcf : ℕ) (dptol ttol Fscale deltat : ℚ) (maxiter : ℕ)
    (x0 y0 x1 y1 h0a a b h0b h0c : ℚ) (bboxC : List (List ℚ))
    (hA1 : h0a ≤ 0) (hA2 : x0 ≤ x1)
    (hC : ∀ x, (1 / 1000) * h0c ≤ fdC x) :
    (DISTMESH.init E fd fh h0a pfix [[x0, y0], [x1, y1]] dcf dptol ttol Fscale deltat
        = none
      ∧ build E fd fh pfix [[x0, y0], [x1, y1]] h0a dcf dptol ttol Fscale deltat maxiter
        = none)
      ∧ (DISTMESH.init E fd fh h0b pfix [[a], [b]] dcf dptol ttol Fscale deltat = none
      ∧ build E fd fh pfix [[a], [b]] h0b dcf dptol ttol Fscale deltat maxiter = none)
      ∧ (DISTMESH.init E fdC fh h0c pfix bboxC dcf dptol ttol Fscale deltat = none
      ∧ build E fdC fh pfix bboxC h0c dcf dptol ttol Fscale deltat maxiter = none) := by
  have h1 := init_none_of_nonpos E fd fh pfix dcf dptol ttol Fscale deltat h0a x0 y0 x1 y1
    hA1 hA2
  have h2 := init_none_of_bbox1 E fd fh pfix dcf dptol ttol Fscale deltat h0b a b
  have h3 := init_none_of_empty_interior E fdC fh pfix bboxC dcf h0c dptol ttol
    Fscale deltat hC
  exact ⟨⟨h1, build_none_of_init_none _ _ _ _ _ _ _ _ _ _ _ _ h1⟩,
    ⟨h2, build_none_of_init_none _ _ _ _ _ _ _ _ _ _ _ _ h2⟩,
    ⟨h3, build_none_of_init_none _ _ _ _ _ _ _ _ _ _ _ _ h3⟩⟩

/-- Witness for C8 at concrete malformed configurations. -/
theorem claim8_witness :
    (DISTMESH.init ExtA fdB fhA (-1) [] [[0, 0], [1, 1]] 30 (1 / 1000) (1 / 10) (6 / 5)
        (1 / 5) = none
      ∧ build ExtA fdB fhA [] [[0, 0], [1, 1]] (-1) 30 (1 / 1000) (1 / 10) (6 / 5) (1 / 5) 5
        = none)
      ∧ (DISTMESH.init ExtA fdB fhA 1 [] [[0], [1]] 30 (1 / 1000) (1 / 10) (6 / 5) (1 / 5)
        = none
      ∧ build ExtA fdB fhA [] [[0], [1]] 1 30 (1 / 1000) (1 / 10) (6 / 5) (1 / 5) 5 = none)
      ∧ (DISTMESH.init ExtA (fun _ => 1) fhA 1 [] [[0, 0], [1, 1]] 30 (1 / 1000) (1 / 10)
        (6 / 5) (1 / 5) = none
      ∧ build ExtA (fun _ => 1) fhA [] [[0, 0], [1, 1]] 1 30 (1 / 1000) (1 / 10) (6 / 5)
        (1 / 5) 5 = none) :=
  claim8_theorem ExtA fdB fhA (fun _ => 1) [] 30 (1 / 1000) (1 / 10) (6 / 5) (1 / 5) 5
    0 0 1 1 (-1) 0 1 1 1 [[0, 0], [1, 1]] (by norm_num) (by norm_num)
    (fun x => by norm_num)

theorem map_eq_range_map_getD {α β : Type} (l : List α) (d : α) (f : α → β) :
    l.map f = (List.range l.length).map (fun j => f (l.getD j d)) := by
  apply List.ext_get?
  intro n
  rw [List.get?_eq_getElem?, List.get?_eq_getElem?]
  by_cases hn : n < l.length
  · rw [List.getElem?_map, List.getElem?_map, List.getElem?_range hn,
      List.getElem?_eq_getElem hn]
    simp only [List.getD_eq_getElem?_getD, Option.map_some']
    rw [List.getElem?_eq_getElem hn]
    rfl
  · rw [List.getElem?_map, List.getElem?_map,
      List.getElem?_eq_none (le_of_not_lt hn),
      List.getElem?_eq_none (by simpa using le_of_not_lt hn)]
    rfl

theorem zipWith_map_same {α β γ δ : Type} (f : β → γ → δ) (g : α → β) (h : α → γ)
    (l : List α) :
    List.zipWith f (l.map g) (l.map h) = l.map (fun x => f (g x) (h x)) := by
  induction l with
  | nil => rfl
  | cons a as ih => simp [ih]

theorem bars_a_eq (dm : DISTMESH) :
    DISTMESH.bars_a dm = (List.range dm.bars.length).map (fun j => dm.endA j) :=
  map_eq_range_map_getD dm.bars (0, 0) (fun b => dm.p.getD b.1 [])

theorem bars_b_eq (dm : DISTMESH) :
    DISTMESH.bars_b dm = (List.range dm.bars.length).map (fun j => dm.endB j) :=
  map_eq_range_map_getD dm.bars (0, 0) (fun b => dm.p.getD b.2 [])

theorem barL_eq (E : Ext) (dm : DISTMESH) :
    DISTMESH.barL E dm = (List.range dm.bars.length).map
      (fun j => dist E (vsub (dm.endA j) (dm.endB j))) := by
  show (List.zipWith vsub (DISTMESH.bars_a dm) (DISTMESH.bars_b dm)).map (dist E) = _
  rw [bars_a_eq, bars_b_eq, zipWith_map_same, List.map_map]
  rfl

theorem hbars_eq (dm : DISTMESH) :
    DISTMESH.hbars dm = (List.range dm.bars.length).map
      (fun j => dm.fh (vsmul (1 / 2) (vadd (dm.endA j) (dm.endB j)))) := by
  show List.zipWith _ (DISTMESH.bars_a dm) (DISTMESH.bars_b dm) = _
  rw [bars_a_eq, bars_b_eq, zipWith_map_same]

/-- Claim C3.  For every bar `i` of the Bar Set, `bar_length` returns the
desired length `L0 i = fh(midpoint i) * Fscale * sqrt((Σ over all bars of
L²) / (Σ over all bars of fh(midpoint)²))`, where `L j` is the Euclidean
length of bar `j` and `midpoint j` the average of its two endpoint
coordinates. -/
theorem claim3_theorem (E : Ext) (dm : DISTMESH) (i : ℕ) (hi : i < dm.bars.length) :
    (dm.bar_length E).2.1[i]?
      = some (dm.fh (vsmul (1 / 2) (vadd (dm.endA i) (dm.endB i))) * dm.Fscale *
        E.sqrt
          ((((List.range dm.bars.length).map (fun j =>
              dist E (vsub (dm.endA j) (dm.endB j))
                * dist E (vsub (dm.endA j) (dm.endB j)))).sum)
            / (((List.range dm.bars.length).map (fun j =>
              dm.fh (vsmul (1 / 2) (vadd (dm.endA j) (dm.endB j)))
                * dm.fh (vsmul (1 / 2) (vadd (dm.endA j) (dm.endB j))))).sum))) := by
  show (DISTMESH.barL0 E dm)[i]? = _
  unfold DISTMESH.barL0
  rw [barL_eq, hbars_eq, List.map_map, List.map_map, List.map_map,
    List.getElem?_map, List.getElem?_range hi]
  rfl

/-- Witness for C3 at bar `0` of the `dmFix` state. -/
theorem claim3_witness :
    (dmFix.bar_length ExtA).2.1[0]?
      = some (dmFix.fh (vsmul (1 / 2) (vadd (dmFix.endA 0) (dmFix.endB 0))) * dmFix.Fscale *
        ExtA.sqrt
          ((((List.range dmFix.bars.length).map (fun j =>
              dist ExtA (vsub (dmFix.endA j) (dmFix.endB j))
                * dist ExtA (vsub (dmFix.endA j) (dmFix.endB j)))).sum)
            / (((List.range dmFix.bars.length).map (fun j =>
              dmFix.fh (vsmul (1 / 2) (vadd (dmFix.endA j) (dmFix.endB j)))
                * dmFix.fh (vsmul (1 / 2) (vadd (dmFix.endA j) (dmFix.endB j))))).sum))) :=
  claim3_theorem ExtA dmFix 0 (by decide)

/-- A successful `move_p` only rewrites the position rows; every other
field survives. -/
theorem move_p_state {E : Ext} {dmv dmO : DISTMESH} {Ftot : List Vec} {c : Bool}
    (h : dmv.move_p E Ftot = some (dmO, c)) :
    dmO = { dmv with p := DISTMESH.move_p2 E dmv Ftot } := by
  unfold DISTMESH.move_p at h
  cases hmax : (DISTMESH.move_deltas E dmv Ftot).max? with
  | none => rw [hmax] at h; exact absurd h (by simp)
  | some m =>
    rw [hmax] at h
    simp only [Option.some.injEq, Prod.mk.injEq] at h
    exact h.1.symm

/-- A property preserved by `triangulate`, `density_control` and the
`move_p` step the loop actually takes is preserved by one loop
iteration. -/
theorem buildIter_pres (E : Ext) (dcf : ℕ) (P : DISTMESH → Prop)
    (hTri : ∀ dm, P dm → P (dm.triangulate E))
    (hDen : ∀ dm L L0, P dm → P (dm.density_control L L0))
    (hMov : ∀ dm dmO c, P dm →
      dm.move_p E (dm.bar_force (DISTMESH.barL E dm) (DISTMESH.barL0 E dm)
        (DISTMESH.barvec dm)) = some (dmO, c) → P dmO)
    (i : ℕ) (dm dm' : DISTMESH) (b : Bool) (hP : P dm)
    (h : buildIter E dcf i dm = some (dm', b)) : P dm' := by
  unfold buildIter at h
  cases hrt : dm.is_retriangulate E with
  | none =>
    rw [hrt] at h
    exact absurd h (by simp)
  | some rt =>
    rw [hrt] at h
    simp only [Option.bind_eq_bind, Option.some_bind, DISTMESH.bar_length] at h
    have hP1 : P (if rt then dm.triangulate E else dm) := by
      cases rt
      · simpa using hP
      · simpa using hTri dm hP
    set dm1 := if rt then dm.triangulate E else dm with hdm1
    by_cases hcond : i % dcf = 0 ∧ (((DISTMESH.barL E dm1).zip (DISTMESH.barL0 E dm1)).any
        (fun ll => decide (ll.2 > 2 * ll.1))) = true
    · rw [if_pos hcond] at h
      simp only [Option.some.injEq, Prod.mk.injEq] at h
      rw [← h.1]
      exact hDen dm1 _ _ hP1
    · rw [if_neg hcond] at h
      cases hmv : dm1.move_p E (dm1.bar_force (DISTMESH.barL E dm1)
          (DISTMESH.barL0 E dm1) (DISTMESH.barvec dm1)) with
      | none => rw [hmv] at h; exact absurd h (by simp)
      | some r =>
        rw [hmv] at h
        simp only [Option.bind_eq_bind, Option.some_bind, Option.some.injEq,
          Prod.mk.injEq] at h
        rw [← h.1]
        exact hMov dm1 r.1 r.2 hP1 (by rw [hmv])

/-- A property preserved by one loop iteration is preserved by the whole
relaxation loop. -/
theorem buildLoop_pres (E : Ext) (dcf : ℕ) (P : DISTMESH → Prop)
    (hIter : ∀ i dm dm' b, P dm → buildIter E dcf i dm = some (dm', b) → P dm') :
    ∀ fuel i dm dm', P dm → buildLoop E dcf fuel i dm = some dm' → P dm' := by
  intro fuel
  induction fuel with
  | zero =>
    intro i dm dm' hP h
    simp only [buildLoop, Option.some.injEq] at h
    rw [← h]
    exact hP
  | succ n ih =>
    intro i dm dm' hP h
    unfold buildLoop at h
    cases hit : buildIter E dcf i dm with
    | none => rw [hit] at h; exact absurd h (by simp)
    | some r =>
      rw [hit] at h
      simp only [Option.bind_eq_bind, Option.some_bind] at h
      have hP' : P r.1 := hIter i dm r.1 r.2 hP (by rw [hit])
      by_cases hb : r.2 = true
      · rw [if_pos hb] at h
        simp only [Option.some.injEq] at h
        rw [← h]
        exact hP'
      · rw [if_neg hb] at h
        exact ih (i + 1) r.1 dm' hP' h

/-- A successful construction is the triangulation of the assembled
record: fixed points first (when any), all configuration fields stored
verbatim. -/
theorem init_some {E : Ext} {fd fh : Vec → ℚ} {h0 : ℚ} {pfix : List Vec}
    {bbox : List (List ℚ)} {dcf : ℕ} {dptol ttol Fscale deltat : ℚ} {dm0 : DISTMESH}
    (h : DISTMESH.init E fd fh h0 pfix bbox dcf dptol ttol Fscale deltat = some dm0) :
    ∃ psamp : List Vec, dm0 = DISTMESH.triangulate E
      { fd := fd, fh := fh, h0 := h0, geps := 1 / 1000 * h0
        densityctrlfreq := dcf, dptol := dptol, ttol := ttol
        Fscale := Fscale, deltat := deltat
        pfix := pfix, nfix := pfix.length, Ndim := (bbox.headD []).length
        p := if 0 < pfix.length then pfix ++ psamp else psamp
        pold := List.replicate
          (if 0 < pfix.length then pfix ++ psamp else psamp).length none
        bars := [], t := []
        N := (if 0 < pfix.length then pfix ++ psamp else psamp).length } := by
  simp only [DISTMESH.init] at h
  by_cases hdim : (bbox.headD []).length = 2
  · rw [if_pos hdim] at h
    cases hb : bbox2d E h0 bbox with
    | none => rw [hb] at h; exact absurd h (by simp)
    | some p0 =>
      rw [hb] at h
      simp only [Option.bind_eq_bind, Option.some_bind] at h
      cases hm : (List.map (fun x => 1 / fh x ^ 2)
          (List.filter (fun x => decide (fd x < 1 / 1000 * h0)) p0)).max? with
      | none => rw [hm] at h; exact absurd h (by simp)
      | some rmax =>
        rw [hm] at h
        simp only [Option.bind_eq_bind, Option.some_bind, Option.some.injEq] at h
        by_cases hc : 0 < pfix.length
        · refine ⟨remove_duplicate_nodes E
            (List.filterMap (fun ixr =>
              if E.rand ixr.1 < ixr.2.2 / rmax then some ixr.2.1 else none)
              ((List.filter (fun x => decide (fd x < 1 / 1000 * h0)) p0).zip
                (List.map (fun x => 1 / fh x ^ 2)
                  (List.filter (fun x => decide (fd x < 1 / 1000 * h0)) p0))).enum)
            pfix (1 / 1000 * h0), ?_⟩
          rw [← h]
          simp only [if_pos hc]
        · refine ⟨List.filterMap (fun ixr =>
            if E.rand ixr.1 < ixr.2.2 / rmax then some ixr.2.1 else none)
            ((List.filter (fun x => decide (fd x < 1 / 1000 * h0)) p0).zip
              (List.map (fun x => 1 / fh x ^ 2)
                (List.filter (fun x => decide (fd x < 1 / 1000 * h0)) p0))).enum, ?_⟩
          rw [← h]
          simp only [if_neg hc]
  · rw [if_neg hdim] at h
    cases hb : bbox3d h0 bbox with
    | none => rw [hb] at h; exact absurd h (by simp)
    | some p0 =>
      rw [hb] at h
      simp only [Option.bind_eq_bind, Option.some_bind] at h
      cases hm : (List.map (fun x => 1 / fh x ^ 2)
          (List.filter (fun x => decide (fd x < 1 / 1000 * h0)) p0)).max? with
      | none => rw [hm] at h; exact absurd h (by simp)
      | some rmax =>
        rw [hm] at h
        simp only [Option.bind_eq_bind, Option.some_bind, Option.some.injEq] at h
        by_cases hc : 0 < pfix.length
        · refine ⟨remove_duplicate_nodes E
            (List.filterMap (fun ixr =>
              if E.rand ixr.1 < ixr.2.2 / rmax then some ixr.2.1 else none)
              ((List.filter (fun x => decide (fd x < 1 / 1000 * h0)) p0).zip
                (List.map (fun x => 1 / fh x ^ 2)
                  (List.filter (fun x => decide (fd x < 1 / 1000 * h0)) p0))).enum)
            pfix (1 / 1000 * h0), ?_⟩
          rw [← h]
          simp only [if_pos hc]
        · refine ⟨List.filterMap (fun ixr =>
            if E.rand ixr.1 < ixr.2.2 / rmax then some ixr.2.1 else none)
            ((List.filter (fun x => decide (fd x < 1 / 1000 * h0)) p0).zip
              (List.map (fun x => 1 / fh x ^ 2)
                (List.filter (fun x => decide (fd x < 1 / 1000 * h0)) p0))).enum, ?_⟩
          rw [← h]
          simp only [if_neg hc]

/-- Claim C2.  Whenever `build` returns — whether the loop broke on the
convergence flag or exhausted `maxiter` — a final retriangulation has been
performed: the returned Simplex Set is exactly the filtered triangulation
of the returned Point Set. -/
theorem claim2_theorem (E : Ext) (fd fh : Vec → ℚ) (pfix : List Vec)
    (bbox : List (List ℚ)) (h0 : ℚ) (dcf : ℕ) (dptol ttol Fscale deltat : ℚ)
    (maxiter : ℕ) (pOut : List Vec) (tOut : List Simplex)
    (hrun : build E fd fh pfix bbox h0 dcf dptol ttol Fscale deltat maxiter
      = some (pOut, tOut)) :
    tOut = DISTMESH._delaunay E fd (1 / 1000 * h0) pOut := by
  simp only [build] at hrun
  cases hinit : DISTMESH.init E fd fh h0 pfix bbox dcf dptol ttol Fscale deltat with
  | none => rw [hinit] at hrun; exact absurd hrun (by simp)
  | some dm0 =>
    rw [hinit] at hrun
    simp only [Option.bind_eq_bind, Option.some_bind] at hrun
    cases hloop : buildLoop E dcf maxiter 0 dm0 with
    | none => rw [hloop] at hrun; exact absurd hrun (by simp)
    | some dmEnd =>
      rw [hloop] at hrun
      simp only [Option.bind_eq_bind, Option.some_bind, Option.some.injEq,
        Prod.mk.injEq] at hrun
      have hP0 : dm0.fd = fd ∧ dm0.geps = 1 / 1000 * h0 := by
        rcases init_some hinit with ⟨psamp, hdm0⟩
        rw [hdm0]
        exact ⟨rfl, rfl⟩
      have hPend : dmEnd.fd = fd ∧ dmEnd.geps = 1 / 1000 * h0 :=
        buildLoop_pres E dcf (fun dm => dm.fd = fd ∧ dm.geps = 1 / 1000 * h0)
          (buildIter_pres E dcf _ (fun dm h => h) (fun dm L L0 h => h)
            (fun dm dmO c h hm => by rw [move_p_state hm]; exact h))
          maxiter 0 dm0 dmEnd hP0 hloop
      rw [← hrun.2, ← hrun.1]
      show DISTMESH._delaunay E dmEnd.fd dmEnd.geps dmEnd.p
        = DISTMESH._delaunay E fd (1 / 1000 * h0) (dmEnd.triangulate E).p
      rw [hPend.1, hPend.2]
      rfl

/-- Witness for C2: a converging one-point run whose returned Simplex Set
is the filtered oracle output on the returned Point Set. -/
theorem claim2_witness :
    ([] : List Simplex) = DISTMESH._delaunay ExtA fdB (1 / 1000 * 1) [[0, 0]] :=
  claim2_theorem ExtA fdB fhA [] [[0, 0], [1, 1]] 1 30 (1 / 1000) (1 / 10) (6 / 5) (1 / 5)
    5 [[0, 0]] [] (by decide)

theorem zipWith_add_replicate_zero (x : List ℚ) :
    List.zipWith (· + ·) x (List.replicate x.length 0) = x := by
  induction x with
  | nil => rfl
  | cons a as ih => simp [List.replicate_succ, ih]

/-- Adding a scaled zero force row leaves a row of matching width
unchanged. -/
theorem vadd_vsmul_vzero (x : Vec) (c : ℚ) (n : ℕ) (h : x.length = n) :
    vadd x (vsmul c (vzero n)) = x := by
  have h1 : vsmul c (vzero n) = List.replicate n 0 := by
    simp [vsmul, vzero, List.map_replicate]
  rw [h1, ← h]
  exact zipWith_add_replicate_zero x

theorem range_map_getD_eq_take {α : Type} (l : List α) (d : α) (n : ℕ)
    (h : n ≤ l.length) :
    (List.range n).map (fun ix => l.getD ix d) = l.take n := by
  apply List.ext_get?
  intro j
  rw [List.get?_eq_getElem?, List.get?_eq_getElem?, List.getElem?_take]
  by_cases hj : j < n
  · rw [if_pos hj, List.getElem?_map, List.getElem?_range hj, Option.map_some',
      List.getElem?_eq_getElem (lt_of_lt_of_le hj h),
      List.getD_eq_getElem _ _ (lt_of_lt_of_le hj h)]
  · rw [if_neg hj, List.getElem?_map, List.getElem?_eq_none (by simpa using le_of_not_lt hj)]
    rfl

theorem take_eq_of_getElem? {α : Type} (l t : List α) (n : ℕ) (hn : t.length = n)
    (h : ∀ j, j < n → l[j]? = t[j]?) : l.take n = t := by
  apply List.ext_get?
  intro j
  rw [List.get?_eq_getElem?, List.get?_eq_getElem?, List.getElem?_take]
  by_cases hj : j < n
  · rw [if_pos hj]
    exact h j hj
  · rw [if_neg hj, List.getElem?_eq_none (by omega)]

theorem le_length_of_take_eq {α : Type} {l t : List α} {n : ℕ} (h : l.take n = t)
    (hn : t.length = n) : n ≤ l.length := by
  have hc := congrArg List.length h
  rw [List.length_take] at hc
  omega

/-- The force array has one row per node. -/
theorem bar_force_length (dm : DISTMESH) (L L0 : List ℚ) (bv : List Vec) :
    (dm.bar_force L L0 bv).length = dm.N := by
  simp [DISTMESH.bar_force, List.enum_length]

/-- The rows of the force array below `len(pfix)` are zeroed. -/
theorem bar_force_fix (dm : DISTMESH) (L L0 : List ℚ) (bv : List Vec) (j : ℕ)
    (hj : j < dm.pfix.length) (hjN : j < dm.N) :
    (dm.bar_force L L0 bv)[j]? = some (vzero dm.Ndim) := by
  unfold DISTMESH.bar_force
  have hbase : ((List.range dm.N).map (fun n =>
      (List.zipWith (fun b fv =>
          vadd (if Prod.fst b = n then fv else vzero dm.Ndim)
            (if Prod.snd b = n then vsmul (-1) fv else vzero dm.Ndim))
        dm.bars (List.zipWith (fun f vl => (Prod.fst vl).map (fun c => f * (c / Prod.snd vl)))
          (List.zipWith (fun l0 l => max (l0 - l) 0) L0 L) (bv.zip L))).foldl vadd
        (vzero dm.Ndim)))[j]?
      = some ((List.zipWith (fun b fv =>
          vadd (if Prod.fst b = j then fv else vzero dm.Ndim)
            (if Prod.snd b = j then vsmul (-1) fv else vzero dm.Ndim))
        dm.bars (List.zipWith (fun f vl => (Prod.fst vl).map (fun c => f * (c / Prod.snd vl)))
          (List.zipWith (fun l0 l => max (l0 - l) 0) L0 L) (bv.zip L))).foldl vadd
        (vzero dm.Ndim)) := by
    rw [List.getElem?_map, List.getElem?_range hjN, Option.map_some']
  rw [List.getElem?_map, List.getElem?_enum, hbase, Option.map_some', Option.map_some']
  simp [hj]

/-- Claim C1 (amended).  In every run of `build` whose fixed points all
have non-positive distance-field value (so that boundary projection never
fires on them) and rows of the lattice width, the first `nfix` rows of the
returned Point Set equal the original fixed points exactly: their force is
zeroed, density control never deletes them, and no step displaces them. -/
theorem claim1_theorem (E : Ext) (fd fh : Vec → ℚ) (pfix : List Vec)
    (bbox : List (List ℚ)) (h0 : ℚ) (dcf : ℕ) (dptol ttol Fscale deltat : ℚ)
    (maxiter : ℕ) (pOut : List Vec) (tOut : List Simplex)
    (hfd0 : ∀ x ∈ pfix, fd x ≤ 0)
    (hwid : ∀ x ∈ pfix, x.length = (bbox.headD []).length)
    (hrun : build E fd fh pfix bbox h0 dcf dptol ttol Fscale deltat maxiter
      = some (pOut, tOut)) :
    pOut.take pfix.length = pfix := by
  have hDen : ∀ (dm : DISTMESH) (L L0 : List ℚ),
      (dm.fd = fd ∧ dm.pfix = pfix ∧ dm.nfix = pfix.length
        ∧ dm.Ndim = (bbox.headD []).length ∧ dm.N = dm.p.length
        ∧ dm.p.take pfix.length = pfix) →
      ((dm.density_control L L0).fd = fd ∧ (dm.density_control L L0).pfix = pfix
        ∧ (dm.density_control L L0).nfix = pfix.length
        ∧ (dm.density_control L L0).Ndim = (bbox.headD []).length
        ∧ (dm.density_control L L0).N = (dm.density_control L L0).p.length
        ∧ (dm.density_control L L0).p.take pfix.length = pfix) := by
    intro dm L L0 h
    obtain ⟨h1, h2, h3, h4, h5, h6⟩ := h
    have hlen : pfix.length ≤ dm.p.length := le_length_of_take_eq h6 rfl
    refine ⟨h1, h2, h3, h4, rfl, ?_⟩
    have hkept : DISTMESH.density_kept dm L L0
        = List.range dm.nfix
          ++ (List.map (fun x => dm.nfix + x) (List.range (dm.N - dm.nfix))).filter
            (fun ix => decide (ix ∉ DISTMESH.density_ixdel dm L L0)) := by
      unfold DISTMESH.density_kept
      conv_lhs => rw [show dm.N = dm.nfix + (dm.N - dm.nfix) by omega]
      rw [List.range_add, List.filter_append]
      congr 1
      apply List.filter_eq_self.mpr
      intro a ha
      simp only [decide_eq_true_eq]
      intro hmem
      have hfree := density_ixdel_free hmem
      have haN := List.mem_range.mp ha
      omega
    show ((DISTMESH.density_kept dm L L0).map (fun ix => dm.p.getD ix [])).take
      pfix.length = pfix
    rw [hkept, List.map_append]
    have hlen2 : ((List.range dm.nfix).map (fun ix => dm.p.getD ix [])).length
        = pfix.length := by simp [h3]
    rw [← hlen2, List.take_left, h3, range_map_getD_eq_take dm.p [] pfix.length hlen]
    exact h6
  have hMov : ∀ (dm dmO : DISTMESH) (c : Bool),
      (dm.fd = fd ∧ dm.pfix = pfix ∧ dm.nfix = pfix.length
        ∧ dm.Ndim = (bbox.headD []).length ∧ dm.N = dm.p.length
        ∧ dm.p.take pfix.length = pfix) →
      dm.move_p E (dm.bar_force (DISTMESH.barL E dm) (DISTMESH.barL0 E dm)
        (DISTMESH.barvec dm)) = some (dmO, c) →
      (dmO.fd = fd ∧ dmO.pfix = pfix ∧ dmO.nfix = pfix.length
        ∧ dmO.Ndim = (bbox.headD []).length ∧ dmO.N = dmO.p.length
        ∧ dmO.p.take pfix.length = pfix) := by
    intro dm dmO c h hm
    obtain ⟨h1, h2, h3, h4, h5, h6⟩ := h
    have hlen : pfix.length ≤ dm.p.length := le_length_of_take_eq h6 rfl
    set F := dm.bar_force (DISTMESH.barL E dm) (DISTMESH.barL0 E dm)
      (DISTMESH.barvec dm) with hFdef
    have hFlen : F.length = dm.N := bar_force_length dm _ _ _
    have hp2len : (DISTMESH.move_p2 E dm F).length = dm.p.length := by
      simp [DISTMESH.move_p2, DISTMESH.move_d, DISTMESH.move_p1, List.length_zipWith,
        List.length_map, hFlen, h5]
    rw [move_p_state hm]
    refine ⟨h1, h2, h3, h4, ?_, ?_⟩
    · show dm.N = (DISTMESH.move_p2 E dm F).length
      rw [hp2len]
      exact h5
    · show (DISTMESH.move_p2 E dm F).take pfix.length = pfix
      apply take_eq_of_getElem? _ _ _ rfl
      intro j hj
      have hjp : j < dm.p.length := lt_of_lt_of_le hj hlen
      have hpfj : pfix[j]? = some pfix[j] := List.getElem?_eq_getElem hj
      have hxm : pfix[j] ∈ pfix := List.getElem_mem hj
      have hpj : dm.p[j]? = some pfix[j] := by
        have hc := congrArg (fun l => l[j]?) h6
        simp only [List.getElem?_take, if_pos hj] at hc
        rw [hc, hpfj]
      have hFj : F[j]? = some (vzero dm.Ndim) :=
        bar_force_fix dm _ _ _ j (by rw [h2]; exact hj) (by rw [h5]; exact hjp)
      have hwx : (pfix[j]).length = (bbox.headD []).length := hwid _ hxm
      have hp1 : (DISTMESH.move_p1 dm F)[j]? = some pfix[j] := by
        simp only [DISTMESH.move_p1, List.getElem?_zipWith]
        rw [hpj, hFj]
        show some (vadd pfix[j] (vsmul dm.deltat (vzero dm.Ndim))) = _
        rw [h4, vadd_vsmul_vzero _ _ _ hwx]
      have hd : (DISTMESH.move_d dm F)[j]? = some (dm.fd pfix[j]) := by
        simp only [DISTMESH.move_d, List.getElem?_map, hp1, Option.map_some']
      show (DISTMESH.move_p2 E dm F)[j]? = pfix[j]?
      simp only [DISTMESH.move_p2, List.getElem?_zipWith]
      rw [hp1, hd]
      have hnot : ¬ dm.fd pfix[j] > 0 := by
        rw [h1]
        exact not_lt.mpr (hfd0 _ hxm)
      show some (if dm.fd pfix[j] > 0 then vsub pfix[j] (edge_project E dm.fd pfix[j])
        else pfix[j]) = _
      rw [if_neg hnot, hpfj]
  simp only [build] at hrun
  cases hinit : DISTMESH.init E fd fh h0 pfix bbox dcf dptol ttol Fscale deltat with
  | none => rw [hinit] at hrun; exact absurd hrun (by simp)
  | some dm0 =>
    rw [hinit] at hrun
    simp only [Option.bind_eq_bind, Option.some_bind] at hrun
    cases hloop : buildLoop E dcf maxiter 0 dm0 with
    | none => rw [hloop] at hrun; exact absurd hrun (by simp)
    | some dmEnd =>
      rw [hloop] at hrun
      simp only [Option.bind_eq_bind, Option.some_bind, Option.some.injEq,
        Prod.mk.injEq] at hrun
      have hP0 : dm0.fd = fd ∧ dm0.pfix = pfix ∧ dm0.nfix = pfix.length
          ∧ dm0.Ndim = (bbox.headD []).length ∧ dm0.N = dm0.p.length
          ∧ dm0.p.take pfix.length = pfix := by
        rcases init_some hinit with ⟨psamp, hdm0⟩
        rw [hdm0]
        refine ⟨rfl, rfl, rfl, rfl, rfl, ?_⟩
        show (if 0 < pfix.length then pfix ++ psamp else psamp).take pfix.length = pfix
        by_cases hc : 0 < pfix.length
        · rw [if_pos hc]
          exact List.take_left pfix psamp
        · rw [if_neg hc]
          have hnil : pfix = [] := List.length_eq_zero.mp (by omega)
          rw [hnil]
          simp
      have hPend := buildLoop_pres E dcf
        (fun dm => dm.fd = fd ∧ dm.pfix = pfix ∧ dm.nfix = pfix.length
          ∧ dm.Ndim = (bbox.headD []).length ∧ dm.N = dm.p.length
          ∧ dm.p.take pfix.length = pfix)
        (buildIter_pres E dcf _ (fun dm h => h) hDen hMov)
        maxiter 0 dm0 dmEnd hP0 hloop
      rw [← hrun.1]
      exact hPend.2.2.2.2.2

/-- Witness for C1 (amended): a run with one interior fixed point returns
it unchanged as row `0`. -/
theorem claim1_witness :
    List.take 1 [[(0 : ℚ), 0]] = [[(0 : ℚ), 0]] :=
  claim1_theorem ExtA fdA fhA [[0, 0]] [[0, 0], [1, 1]] 1 30 (1 / 1000) (1 / 10) (6 / 5)
    (1 / 5) 3 [[0, 0]] [] (by decide) (by decide) (by decide)

end Proofs

end Distmesh
